import Mathlib

/-!
Shallow embedding of the odesolve stepping engine (src/ode.h).

Real (double) arithmetic is modelled exactly over the rationals; the claims
settled here are structural (staging, coefficients, additive write-back,
loop control), not about floating-point rounding.

The trajectory buffer of the N-dimensional stepper is modelled as a list of
state blocks (each block a list of rationals, one per dimension); the scalar
stepper's buffer is a list of rationals.  The C loops walk a pointer over the
buffer and update slot k+1 in place from slot k; this is the folds odeLoop
and ODE1loop below, which pass the freshly written block along, exactly as
the pointer walk reads it back.
-/

namespace Odesolve

/-- The scheme enumeration: typedef enum {EULER = 0, HEUN, RKFOUR, UNKNOWN} ode_t. -/
inductive ode_t
  | EULER
  | HEUN
  | RKFOUR
  | UNKNOWN
deriving DecidableEq

/-- ASCII lower-casing of one character, as C tolower acts on the letters. -/
def tolower (c : Char) : Char :=
  if ('A') ≤ c ∧ c ≤ ('Z') then Char.ofNat (c.toNat + 32) else c

/-- Case-insensitive string equality, the embedding of strcasecmp(a,b) == 0:
the two strings agree character by character up to letter case. -/
def strcaseeq (a b : String) : Bool :=
  a.data.map tolower == b.data.map tolower

/-- The registry parse function str2ode (src/ode.h lines 9-12): successive
case-insensitive comparisons against the three canonical names, with UNKNOWN
as the fall-through result. -/
def str2ode (s : String) : ode_t :=
  if strcaseeq s ("Euler") then ode_t.EULER
  else if strcaseeq s ("Heun") then ode_t.HEUN
  else if strcaseeq s ("RK4") then ode_t.RKFOUR
  else ode_t.UNKNOWN

/-- Euler per-step increment (ODE macro, EULER case): udot = odefun(u);
componentwise u[i] + h*udot[i]. -/
def eulerInc (f : List ℚ → List ℚ) (h : ℚ) (u : List ℚ) : List ℚ :=
  List.zipWith (fun a b => a + h * b) u (f u)

/-- Heun per-step increment (ODE macro, HEUN case): udot1 = odefun(u);
v[i] = u[i] + h*udot1[i]; udot2 = odefun(v); componentwise
u[i] + (h/2)*(udot1[i] + udot2[i]). -/
def heunInc (f : List ℚ → List ℚ) (h : ℚ) (u : List ℚ) : List ℚ :=
  let h2 := h / 2
  let udot1 := f u
  let v := List.zipWith (fun a b => a + h * b) u udot1
  let udot2 := f v
  List.zipWith (fun a b => a + h2 * b) u (List.zipWith (fun a b => a + b) udot1 udot2)

/-- RK4 per-step increment (ODE macro, RKFOUR case): udot1 = odefun(u);
v = u + (h/2)udot1; udot2 = odefun(v); v = u + (h/2)udot2; udot3 = odefun(v);
v = u + h*udot3; udot4 = odefun(v); componentwise
u[i] + (h/6)*(udot1[i] + 2*udot2[i] + 2*udot3[i] + udot4[i]). -/
def rk4Inc (f : List ℚ → List ℚ) (h : ℚ) (u : List ℚ) : List ℚ :=
  let h2 := h / 2
  let h6 := h / 6
  let udot1 := f u
  let udot2 := f (List.zipWith (fun a b => a + h2 * b) u udot1)
  let udot3 := f (List.zipWith (fun a b => a + h2 * b) u udot2)
  let udot4 := f (List.zipWith (fun a b => a + h * b) u udot3)
  List.zipWith (fun a b => a + h6 * b) u
    (List.zipWith (fun a b => a + b)
      (List.zipWith (fun a b => a + 2 * b)
        (List.zipWith (fun a b => a + 2 * b) udot1 udot2) udot3) udot4)

/-- The pointer walk of the ODE macro: given the block u currently under the
pointer, the next block is updated in place by u1[i] += inc(u)[i], and the
walk continues from the freshly written block. -/
def odeLoop (inc : List ℚ → List ℚ) : List ℚ → List (List ℚ) → List (List ℚ)
  | _, [] => []
  | u, u1 :: rest =>
      let u1' := List.zipWith (fun a b => a + b) u1 (inc u)
      u1' :: odeLoop inc u1' rest

/-- Run one scheme case of the ODE macro over the whole buffer: slot 0 is
never written; the loop starts with the pointer at slot 0. -/
def odeRun (inc : List ℚ → List ℚ) : List (List ℚ) → List (List ℚ)
  | [] => []
  | u0 :: rest => u0 :: odeLoop inc u0 rest

/-- The N-dimensional stepper, the ODE macro of src/ode.h (lines 33-80):
a switch on the scheme, each real case running its per-step increment over
the buffer, and the default case doing nothing. -/
def ODE : ode_t → (List ℚ → List ℚ) → ℚ → List (List ℚ) → List (List ℚ)
  | ode_t.EULER, f, h, x => odeRun (eulerInc f h) x
  | ode_t.HEUN, f, h, x => odeRun (heunInc f h) x
  | ode_t.RKFOUR, f, h, x => odeRun (rk4Inc f h) x
  | ode_t.UNKNOWN, _, _, x => x

/-- Whether a scheme is one of the three real cases of the switch. -/
def realScheme : ode_t → Bool
  | ode_t.UNKNOWN => false
  | _ => true

/-- The per-step increment selected by the switch of the ODE macro; the
UNKNOWN value is never used (the default case runs no loop). -/
def schemeInc : ode_t → (List ℚ → List ℚ) → ℚ → List ℚ → List ℚ
  | ode_t.EULER, f, h => eulerInc f h
  | ode_t.HEUN, f, h => heunInc f h
  | ode_t.RKFOUR, f, h => rk4Inc f h
  | ode_t.UNKNOWN, _, _ => id

/-- Scalar Euler per-step increment (ODE1 macro, EULER case):
udot = odefun(u); *u + h*udot. -/
def euler1Inc (f : ℚ → ℚ) (h : ℚ) (u : ℚ) : ℚ :=
  u + h * f u

/-- Scalar Heun per-step increment (ODE1 macro, HEUN case):
udot1 = odefun(u); v = *u + h*udot1; udot2 = odefun(v); *u + (h/2)*(udot1+udot2). -/
def heun1Inc (f : ℚ → ℚ) (h : ℚ) (u : ℚ) : ℚ :=
  let h2 := h / 2
  let udot1 := f u
  let v := u + h * udot1
  let udot2 := f v
  u + h2 * (udot1 + udot2)

/-- Modelled from the spec: the scalar RK4 increment.  The source's RKFOUR
case of the ODE1 macro (src/ode.h line 128) is ill-typed at its final
accumulation: *(u+1) += u + h6*(udot1+2.0*udot2+2.0*udot3+udot4) adds the
pointer u itself, not the value *u, and a double* plus a double is a C
constraint violation.  The stage computations (the four odefun calls and the
three probe states v) are taken from the source; the final accumulated value
*u + h6*(...) follows the spec's RK4 formula, which every other case and the
N-dimensional RKFOUR case use. -/
def rk41Inc (f : ℚ → ℚ) (h : ℚ) (u : ℚ) : ℚ :=
  let h2 := h / 2
  let h6 := h / 6
  let udot1 := f u
  let udot2 := f (u + h2 * udot1)
  let udot3 := f (u + h2 * udot2)
  let udot4 := f (u + h * udot3)
  u + h6 * (udot1 + 2 * udot2 + 2 * udot3 + udot4)

/-- The pointer walk of the ODE1 macro: *(u+1) += inc(*u), continuing from
the freshly written slot. -/
def ODE1loop (inc : ℚ → ℚ) : ℚ → List ℚ → List ℚ
  | _, [] => []
  | u, u1 :: rest =>
      let u1' := u1 + inc u
      u1' :: ODE1loop inc u1' rest

/-- Run one scheme case of the ODE1 macro over the whole buffer. -/
def ode1Run (inc : ℚ → ℚ) : List ℚ → List ℚ
  | [] => []
  | u0 :: rest => u0 :: ODE1loop inc u0 rest

/-- The scalar stepper, the ODE1 macro of src/ode.h (lines 90-133): a switch
on the scheme with a do-nothing default case.  Its RKFOUR case uses the
spec-modelled rk41Inc (see there). -/
def ODE1 : ode_t → (ℚ → ℚ) → ℚ → List ℚ → List ℚ
  | ode_t.EULER, f, h, x => ode1Run (euler1Inc f h) x
  | ode_t.HEUN, f, h, x => ode1Run (heun1Inc f h) x
  | ode_t.RKFOUR, f, h, x => ode1Run (rk41Inc f h) x
  | ode_t.UNKNOWN, _, _, x => x

/-- The scalar per-step increment selected by the switch of the ODE1 macro. -/
def scheme1Inc : ode_t → (ℚ → ℚ) → ℚ → ℚ → ℚ
  | ode_t.EULER, f, h => euler1Inc f h
  | ode_t.HEUN, f, h => heun1Inc f h
  | ode_t.RKFOUR, f, h => rk41Inc f h
  | ode_t.UNKNOWN, _, _ => id

/-- The modulus of size_t arithmetic (64-bit). -/
def SIZE_MOD : ℕ := 2 ^ 64

/-- The C expression n - 1 evaluated at type size_t: wraps to 2^64 - 1 when
n = 0. -/
def sizeSub1 (n : ℕ) : ℕ :=
  (n + (SIZE_MOD - 1)) % SIZE_MOD

/-- The pointer offset N*(n-1) of the loop bound u < x + N*(n-1) in the ODE
macro (src/ode.h line 39 and the other two real cases), evaluated in size_t
arithmetic.  The ODE1 macro's bound u < x + n - 1 is the same with N = 1. -/
def odeLoopOffset (N n : ℕ) : ℕ :=
  (N * sizeSub1 n) % SIZE_MOD

/-- The number of iterations of for (u = x; u < x + off; u += N): the
pointer positions visited are x + k*N for k*N < off, so ceil(off/N) of them
(for N > 0, barring pointer wraparound). -/
def odeLoopIters (N n : ℕ) : ℕ :=
  (odeLoopOffset N n + N - 1) / N

/-!  Loop-indexing lemmas: the block written at slot k of the walk is the
pre-existing block plus the increment of the previous (freshly written)
block. -/

lemma odeLoop_length (inc : List ℚ → List ℚ) :
    ∀ (rest : List (List ℚ)) (u : List ℚ), (odeLoop inc u rest).length = rest.length
  | [], _ => rfl
  | _ :: rest, u => by
      simp only [odeLoop, List.length_cons]
      rw [odeLoop_length inc rest]

lemma odeLoop_getD (inc : List ℚ → List ℚ) :
    ∀ (rest : List (List ℚ)) (u : List ℚ) (k : ℕ), k < rest.length →
      (odeLoop inc u rest).getD k [] =
        List.zipWith (fun a b => a + b) (rest.getD k [])
          (inc ((u :: odeLoop inc u rest).getD k []))
  | [], _, k, hk => absurd hk (by simp)
  | u1 :: rest, u, 0, _ => by
      simp [odeLoop]
  | u1 :: rest, u, k + 1, hk => by
      have hk' : k < rest.length := by
        simpa using Nat.lt_of_succ_lt_succ hk
      simp only [odeLoop, List.getD_cons_succ]
      exact odeLoop_getD inc rest (List.zipWith (fun a b => a + b) u1 (inc u)) k hk'

lemma odeRun_length (inc : List ℚ → List ℚ) (x : List (List ℚ)) :
    (odeRun inc x).length = x.length := by
  cases x with
  | nil => rfl
  | cons u0 rest => simp [odeRun, odeLoop_length]

lemma odeRun_getD_zero (inc : List ℚ → List ℚ) (x : List (List ℚ)) :
    (odeRun inc x).getD 0 [] = x.getD 0 [] := by
  cases x with
  | nil => rfl
  | cons u0 rest => rfl

lemma odeRun_getD (inc : List ℚ → List ℚ) (x : List (List ℚ)) (k : ℕ)
    (hk : k + 1 < x.length) :
    (odeRun inc x).getD (k + 1) [] =
      List.zipWith (fun a b => a + b) (x.getD (k + 1) [])
        (inc ((odeRun inc x).getD k [])) := by
  cases x with
  | nil => simp at hk
  | cons u0 rest =>
      have hk' : k < rest.length := by simpa using Nat.lt_of_succ_lt_succ hk
      simp only [odeRun, List.getD_cons_succ]
      exact odeLoop_getD inc rest u0 k hk'

lemma ODE1loop_length (inc : ℚ → ℚ) :
    ∀ (rest : List ℚ) (u : ℚ), (ODE1loop inc u rest).length = rest.length
  | [], _ => rfl
  | _ :: rest, u => by
      simp only [ODE1loop, List.length_cons]
      rw [ODE1loop_length inc rest]

lemma ODE1loop_getD (inc : ℚ → ℚ) :
    ∀ (rest : List ℚ) (u : ℚ) (k : ℕ), k < rest.length →
      (ODE1loop inc u rest).getD k 0 =
        rest.getD k 0 + inc ((u :: ODE1loop inc u rest).getD k 0)
  | [], _, k, hk => absurd hk (by simp)
  | u1 :: rest, u, 0, _ => by
      simp [ODE1loop]
  | u1 :: rest, u, k + 1, hk => by
      have hk' : k < rest.length := by
        simpa using Nat.lt_of_succ_lt_succ hk
      simp only [ODE1loop, List.getD_cons_succ]
      exact ODE1loop_getD inc rest (u1 + inc u) k hk'

lemma ode1Run_length (inc : ℚ → ℚ) (x : List ℚ) :
    (ode1Run inc x).length = x.length := by
  cases x with
  | nil => rfl
  | cons u0 rest => simp [ode1Run, ODE1loop_length]

lemma ode1Run_getD_zero (inc : ℚ → ℚ) (x : List ℚ) :
    (ode1Run inc x).getD 0 0 = x.getD 0 0 := by
  cases x with
  | nil => rfl
  | cons u0 rest => rfl

lemma ode1Run_getD (inc : ℚ → ℚ) (x : List ℚ) (k : ℕ)
    (hk : k + 1 < x.length) :
    (ode1Run inc x).getD (k + 1) 0 =
      x.getD (k + 1) 0 + inc ((ode1Run inc x).getD k 0) := by
  cases x with
  | nil => simp at hk
  | cons u0 rest =>
      have hk' : k < rest.length := by simpa using Nat.lt_of_succ_lt_succ hk
      simp only [ode1Run, List.getD_cons_succ]
      exact ODE1loop_getD inc rest u0 k hk'

lemma ODE_real_run (s : ode_t) (f : List ℚ → List ℚ) (h : ℚ) (x : List (List ℚ))
    (hs : realScheme s = true) :
    ODE s f h x = odeRun (schemeInc s f h) x := by
  cases s <;> first | rfl | exact absurd hs (by simp [realScheme])

lemma ODE1_real_run (s : ode_t) (f : ℚ → ℚ) (h : ℚ) (x : List ℚ)
    (hs : realScheme s = true) :
    ODE1 s f h x = ode1Run (scheme1Inc s f h) x := by
  cases s <;> first | rfl | exact absurd hs (by simp [realScheme])

lemma strcaseeq_excl (s a b : String)
    (hab : a.data.map tolower ≠ b.data.map tolower)
    (ha : strcaseeq s a = true) : strcaseeq s b = false := by
  simp only [strcaseeq, beq_iff_eq] at ha
  simp only [strcaseeq, beq_eq_false_iff_ne, ne_eq]
  intro hb
  exact hab (ha ▸ hb)

/-- Claim C7: the registry parse is total: any input matching Euler, Heun or
RK4 up to letter case maps to the corresponding scheme, any other input maps
to the UNKNOWN sentinel, and in particular parsing bogus yields UNKNOWN. -/
theorem str2ode_parse_total :
    (∀ s : String, strcaseeq s ("Euler") = true → str2ode s = ode_t.EULER) ∧
    (∀ s : String, strcaseeq s ("Heun") = true → str2ode s = ode_t.HEUN) ∧
    (∀ s : String, strcaseeq s ("RK4") = true → str2ode s = ode_t.RKFOUR) ∧
    (∀ s : String, strcaseeq s ("Euler") = false → strcaseeq s ("Heun") = false →
      strcaseeq s ("RK4") = false → str2ode s = ode_t.UNKNOWN) ∧
    str2ode ("bogus") = ode_t.UNKNOWN := by
  refine ⟨?_, ?_, ?_, ?_, ?_⟩
  · intro s hs
    simp [str2ode, hs]
  · intro s hs
    have h1 : strcaseeq s ("Euler") = false :=
      strcaseeq_excl s ("Heun") ("Euler") (by decide) hs
    simp [str2ode, h1, hs]
  · intro s hs
    have h1 : strcaseeq s ("Euler") = false :=
      strcaseeq_excl s ("RK4") ("Euler") (by decide) hs
    have h2 : strcaseeq s ("Heun") = false :=
      strcaseeq_excl s ("RK4") ("Heun") (by decide) hs
    simp [str2ode, h1, h2, hs]
  · intro s h1 h2 h3
    simp [str2ode, h1, h2, h3]
  · decide

/-- Witness for C7 at concrete inputs. -/
theorem str2ode_parse_total_witness :
    str2ode ("eULeR") = ode_t.EULER ∧ str2ode ("bogus") = ode_t.UNKNOWN :=
  ⟨str2ode_parse_total.1 ("eULeR") (by decide), str2ode_parse_total.2.2.2.2⟩

/-- Claim C6: with the UNKNOWN scheme both steppers are no-ops: the buffer is
returned exactly as given, and the result does not depend on the vector field
at all (the default case of the switch never evaluates it). -/
theorem unknown_scheme_is_noop (f : List ℚ → List ℚ) (g : ℚ → ℚ) (h : ℚ)
    (x : List (List ℚ)) (x1 : List ℚ) :
    ODE ode_t.UNKNOWN f h x = x ∧ ODE1 ode_t.UNKNOWN g h x1 = x1 ∧
    (∀ (f2 : List ℚ → List ℚ) (g2 : ℚ → ℚ),
      ODE ode_t.UNKNOWN f h x = ODE ode_t.UNKNOWN f2 h x ∧
      ODE1 ode_t.UNKNOWN g h x1 = ODE1 ode_t.UNKNOWN g2 h x1) :=
  ⟨rfl, rfl, fun _ _ => ⟨rfl, rfl⟩⟩

/-- Claim C8: with a one-slot trajectory (n = 1) both steppers leave the
buffer identical to what it was, for every scheme: the step loop bound is
empty, so no slot is written. -/
theorem n_eq_one_is_noop (s : ode_t) (f : List ℚ → List ℚ) (g : ℚ → ℚ) (h : ℚ)
    (u0 : List ℚ) (a : ℚ) :
    ODE s f h [u0] = [u0] ∧ ODE1 s g h [a] = [a] := by
  cases s <;> exact ⟨rfl, rfl⟩

/-- Claim C1: every write to slot k+1 adds the scheme increment to the value
already stored there (for both steppers and every real scheme), and in
particular a zero vector field with h = 0 and state(1) preset to 5 yields
state(1) = 5 + state(0) after one Euler step. -/
theorem writes_are_additive (s : ode_t) (f : List ℚ → List ℚ) (g : ℚ → ℚ) (h : ℚ)
    (x : List (List ℚ)) (x1 : List ℚ) (k : ℕ) (a : ℚ)
    (hs : realScheme s = true) (hk : k + 1 < x.length) (hk1 : k + 1 < x1.length) :
    (ODE s f h x).getD (k + 1) [] =
      List.zipWith (fun p q => p + q) (x.getD (k + 1) [])
        (schemeInc s f h ((ODE s f h x).getD k [])) ∧
    (ODE1 s g h x1).getD (k + 1) 0 =
      x1.getD (k + 1) 0 + scheme1Inc s g h ((ODE1 s g h x1).getD k 0) ∧
    ODE ode_t.EULER (fun u => u.map fun _ => 0) 0 [[a], [5]] = [[a], [5 + a]] := by
  refine ⟨?_, ?_, ?_⟩
  · rw [ODE_real_run s f h x hs]
    exact odeRun_getD (schemeInc s f h) x k hk
  · rw [ODE1_real_run s g h x1 hs]
    exact ode1Run_getD (scheme1Inc s g h) x1 k hk1
  · show odeRun (eulerInc (fun u => u.map fun _ => 0) 0) [[a], [5]] = [[a], [5 + a]]
    simp [odeRun, odeLoop, eulerInc, List.zipWith]

/-- Witness for C1 at concrete inputs. -/
theorem writes_are_additive_witness :
    (ODE ode_t.EULER (fun u => u) 1 [[1], [2]]).getD 1 [] =
      List.zipWith (fun p q => p + q) ([[(1 : ℚ)], [2]].getD 1 [])
        (schemeInc ode_t.EULER (fun u => u) 1
          ((ODE ode_t.EULER (fun u => u) 1 [[1], [2]]).getD 0 [])) ∧
    (ODE1 ode_t.EULER (fun q => q) 1 [3, 4]).getD 1 0 =
      [(3 : ℚ), 4].getD 1 0 + scheme1Inc ode_t.EULER (fun q => q) 1
        ((ODE1 ode_t.EULER (fun q => q) 1 [3, 4]).getD 0 0) ∧
    ODE ode_t.EULER (fun u => u.map fun _ => 0) 0 [[2], [5]] = [[2], [5 + 2]] :=
  writes_are_additive ode_t.EULER (fun u => u) (fun q => q) 1 [[1], [2]] [3, 4] 0 2
    (by decide) (by decide) (by decide)

/-- Claim C4: each Euler step adds u[i] + h*odefun(u)[i] to slot k+1, where
u is the state the pointer reads from slot k; in particular slot 1 receives
its prior value plus state(0) + h*odefun(state(0)). -/
theorem ode_euler_step (f : List ℚ → List ℚ) (h : ℚ) (x : List (List ℚ)) (k : ℕ)
    (hk : k + 1 < x.length) :
    (ODE ode_t.EULER f h x).getD (k + 1) [] =
      List.zipWith (fun p q => p + q) (x.getD (k + 1) [])
        (List.zipWith (fun p q => p + h * q) ((ODE ode_t.EULER f h x).getD k [])
          (f ((ODE ode_t.EULER f h x).getD k []))) ∧
    (ODE ode_t.EULER f h x).getD 1 [] =
      List.zipWith (fun p q => p + q) (x.getD 1 [])
        (List.zipWith (fun p q => p + h * q) (x.getD 0 []) (f (x.getD 0 []))) := by
  have h1 : 1 < x.length := lt_of_le_of_lt (Nat.succ_le_succ (Nat.zero_le k)) hk
  constructor
  · exact odeRun_getD (eulerInc f h) x k hk
  · have h0 := odeRun_getD (eulerInc f h) x 0 h1
    rw [odeRun_getD_zero (eulerInc f h) x] at h0
    exact h0

/-- Witness for C4 at concrete inputs. -/
theorem ode_euler_step_witness :
    (ODE ode_t.EULER (fun u => u) 1 [[2], [3]]).getD 1 [] =
      List.zipWith (fun p q => p + q) ([[(2 : ℚ)], [3]].getD 1 [])
        (List.zipWith (fun p q => p + 1 * q)
          ((ODE ode_t.EULER (fun u => u) 1 [[2], [3]]).getD 0 [])
          ((ODE ode_t.EULER (fun u => u) 1 [[2], [3]]).getD 0 [])) ∧
    (ODE ode_t.EULER (fun u => u) 1 [[2], [3]]).getD 1 [] =
      List.zipWith (fun p q => p + q) ([[(2 : ℚ)], [3]].getD 1 [])
        (List.zipWith (fun p q => p + 1 * q) ([[(2 : ℚ)], [3]].getD 0 [])
          ([[(2 : ℚ)], [3]].getD 0 [])) :=
  ode_euler_step (fun u => u) 1 [[2], [3]] 0 (by decide)

/-- Claim C3: each Heun step computes d1 = odefun(u), the probe
v = u + h*d1, d2 = odefun(v), and adds u + (h/2)*(d1 + d2) to slot k+1,
componentwise, with u the state the pointer reads from slot k. -/
theorem ode_heun_step (f : List ℚ → List ℚ) (h : ℚ) (x : List (List ℚ)) (k : ℕ)
    (hk : k + 1 < x.length) :
    (ODE ode_t.HEUN f h x).getD (k + 1) [] =
      List.zipWith (fun p q => p + q) (x.getD (k + 1) [])
        (List.zipWith (fun p q => p + (h / 2) * q) ((ODE ode_t.HEUN f h x).getD k [])
          (List.zipWith (fun p q => p + q) (f ((ODE ode_t.HEUN f h x).getD k []))
            (f (List.zipWith (fun p q => p + h * q) ((ODE ode_t.HEUN f h x).getD k [])
              (f ((ODE ode_t.HEUN f h x).getD k [])))))) :=
  odeRun_getD (heunInc f h) x k hk

/-- Witness for C3 at concrete inputs. -/
theorem ode_heun_step_witness :
    (ODE ode_t.HEUN (fun u => u) 1 [[2], [3]]).getD 1 [] =
      List.zipWith (fun p q => p + q) ([[(2 : ℚ)], [3]].getD 1 [])
        (List.zipWith (fun p q => p + ((1 : ℚ) / 2) * q)
          ((ODE ode_t.HEUN (fun u => u) 1 [[2], [3]]).getD 0 [])
          (List.zipWith (fun p q => p + q)
            ((ODE ode_t.HEUN (fun u => u) 1 [[2], [3]]).getD 0 [])
            (List.zipWith (fun p q => p + 1 * q)
              ((ODE ode_t.HEUN (fun u => u) 1 [[2], [3]]).getD 0 [])
              ((ODE ode_t.HEUN (fun u => u) 1 [[2], [3]]).getD 0 [])))) :=
  ode_heun_step (fun u => u) 1 [[2], [3]] 0 (by decide)

/-- Claim C2: each RK4 step computes the four stage derivatives d1..d4 with
probes u + (h/2)d1, u + (h/2)d2, u + h*d3, and adds
u + (h/6)*(d1 + 2*d2 + 2*d3 + d4) to slot k+1, componentwise, with u the
state the pointer reads from slot k. -/
theorem ode_rk4_step (f : List ℚ → List ℚ) (h : ℚ) (x : List (List ℚ)) (k : ℕ)
    (hk : k + 1 < x.length) :
    (ODE ode_t.RKFOUR f h x).getD (k + 1) [] =
      List.zipWith (fun p q => p + q) (x.getD (k + 1) [])
        (List.zipWith (fun p q => p + h / 6 * q) ((ODE ode_t.RKFOUR f h x).getD k [])
          (List.zipWith (fun p q => p + q)
            (List.zipWith (fun p q => p + 2 * q)
              (List.zipWith (fun p q => p + 2 * q)
                (f ((ODE ode_t.RKFOUR f h x).getD k []))
                (f (List.zipWith (fun p q => p + h / 2 * q)
                  ((ODE ode_t.RKFOUR f h x).getD k [])
                  (f ((ODE ode_t.RKFOUR f h x).getD k [])))))
              (f (List.zipWith (fun p q => p + h / 2 * q)
                ((ODE ode_t.RKFOUR f h x).getD k [])
                (f (List.zipWith (fun p q => p + h / 2 * q)
                  ((ODE ode_t.RKFOUR f h x).getD k [])
                  (f ((ODE ode_t.RKFOUR f h x).getD k [])))))))
            (f (List.zipWith (fun p q => p + h * q)
              ((ODE ode_t.RKFOUR f h x).getD k [])
              (f (List.zipWith (fun p q => p + h / 2 * q)
                ((ODE ode_t.RKFOUR f h x).getD k [])
                (f (List.zipWith (fun p q => p + h / 2 * q)
                  ((ODE ode_t.RKFOUR f h x).getD k [])
                  (f ((ODE ode_t.RKFOUR f h x).getD k [])))))))))) :=
  odeRun_getD (rk4Inc f h) x k hk

/-- Witness for C2 at concrete inputs. -/
theorem ode_rk4_step_witness :
    (ODE ode_t.RKFOUR (fun u => u) 1 [[2], [3]]).getD 1 [] =
      List.zipWith (fun p q => p + q) ([[(2 : ℚ)], [3]].getD 1 [])
        (List.zipWith (fun p q => p + 1 / 6 * q)
          ((ODE ode_t.RKFOUR (fun u => u) 1 [[2], [3]]).getD 0 [])
          (List.zipWith (fun p q => p + q)
            (List.zipWith (fun p q => p + 2 * q)
              (List.zipWith (fun p q => p + 2 * q)
                ((ODE ode_t.RKFOUR (fun u => u) 1 [[2], [3]]).getD 0 [])
                (List.zipWith (fun p q => p + 1 / 2 * q)
                  ((ODE ode_t.RKFOUR (fun u => u) 1 [[2], [3]]).getD 0 [])
                  ((ODE ode_t.RKFOUR (fun u => u) 1 [[2], [3]]).getD 0 [])))
              (List.zipWith (fun p q => p + 1 / 2 * q)
                ((ODE ode_t.RKFOUR (fun u => u) 1 [[2], [3]]).getD 0 [])
                (List.zipWith (fun p q => p + 1 / 2 * q)
                  ((ODE ode_t.RKFOUR (fun u => u) 1 [[2], [3]]).getD 0 [])
                  ((ODE ode_t.RKFOUR (fun u => u) 1 [[2], [3]]).getD 0 []))))
            (List.zipWith (fun p q => p + 1 * q)
              ((ODE ode_t.RKFOUR (fun u => u) 1 [[2], [3]]).getD 0 [])
              (List.zipWith (fun p q => p + 1 / 2 * q)
                ((ODE ode_t.RKFOUR (fun u => u) 1 [[2], [3]]).getD 0 [])
                (List.zipWith (fun p q => p + 1 / 2 * q)
                  ((ODE ode_t.RKFOUR (fun u => u) 1 [[2], [3]]).getD 0 [])
                  ((ODE ode_t.RKFOUR (fun u => u) 1 [[2], [3]]).getD 0 [])))))) :=
  ode_rk4_step (fun u => u) 1 [[2], [3]] 0 (by decide)

lemma odeLoop_map_singleton (inc1 : ℚ → ℚ) (incN : List ℚ → List ℚ)
    (hinc : ∀ u : ℚ, incN [u] = [inc1 u]) :
    ∀ (rest : List ℚ) (u : ℚ),
      odeLoop incN [u] (rest.map fun a => [a]) =
        (ODE1loop inc1 u rest).map fun a => [a]
  | [], _ => rfl
  | c :: rest, u => by
      have h1 : List.zipWith (fun a b => a + b) [c] (incN [u]) = [c + inc1 u] := by
        rw [hinc]
        rfl
      simp only [List.map_cons, odeLoop, ODE1loop]
      rw [h1, odeLoop_map_singleton inc1 incN hinc rest (c + inc1 u)]

/-- Claim C5 (supporting theorem): for the Euler and Heun cases the scalar
stepper agrees exactly with the N-dimensional stepper at N = 1 (each scalar
slot viewed as a one-component state block).  The RKFOUR case of the scalar
stepper in the source is excluded: its final accumulation adds the pointer u
rather than the value *u, so it cannot agree (see rk41Inc). -/
theorem scalar_stepper_matches_dim1 (s : ode_t) (f : ℚ → ℚ) (h : ℚ) (x : List ℚ)
    (hs : s = ode_t.EULER ∨ s = ode_t.HEUN) :
    ODE s (fun u => u.map f) h (x.map fun a => [a]) =
      (ODE1 s f h x).map fun a => [a] := by
  have hE : ∀ u : ℚ, eulerInc (fun u => u.map f) h [u] = [euler1Inc f h u] :=
    fun u => rfl
  have hH : ∀ u : ℚ, heunInc (fun u => u.map f) h [u] = [heun1Inc f h u] :=
    fun u => rfl
  rcases hs with hs | hs
  · subst hs
    cases x with
    | nil => rfl
    | cons u0 rest =>
        simp only [List.map_cons, ODE, ODE1, odeRun, ode1Run]
        rw [odeLoop_map_singleton _ _ hE rest u0]
  · subst hs
    cases x with
    | nil => rfl
    | cons u0 rest =>
        simp only [List.map_cons, ODE, ODE1, odeRun, ode1Run]
        rw [odeLoop_map_singleton _ _ hH rest u0]

/-- Witness for the C5 supporting theorem at concrete inputs. -/
theorem scalar_stepper_matches_dim1_witness :
    ODE ode_t.EULER (fun u => u.map fun q => q) 1 ([1, 2].map fun a => [a]) =
      (ODE1 ode_t.EULER (fun q => q) 1 [1, 2]).map fun a => [a] :=
  scalar_stepper_matches_dim1 ode_t.EULER (fun q => q) 1 [1, 2] (Or.inl rfl)

lemma axpy_zero (c : ℚ) : ∀ (u : List ℚ) (N : ℕ), u.length = N →
    List.zipWith (fun a b => a + c * b) u (List.replicate N 0) = u
  | [], _, hu => by subst hu; rfl
  | a :: t, N, hu => by
      subst hu
      simp only [List.length_cons, List.replicate_succ, List.zipWith_cons_cons]
      rw [axpy_zero c t t.length rfl]
      norm_num

lemma zadd_zero_left : ∀ (v : List ℚ) (N : ℕ), v.length = N →
    List.zipWith (fun p q => p + q) (List.replicate N 0) v = v
  | [], _, hv => by subst hv; rfl
  | a :: t, N, hv => by
      subst hv
      simp only [List.length_cons, List.replicate_succ, List.zipWith_cons_cons]
      rw [zadd_zero_left t t.length rfl]
      norm_num

lemma zipWith_replicate_q (f : ℚ → ℚ → ℚ) (a b : ℚ) : ∀ N : ℕ,
    List.zipWith f (List.replicate N a) (List.replicate N b) =
      List.replicate N (f a b)
  | 0 => rfl
  | N + 1 => by
      simp only [List.replicate_succ, List.zipWith_cons_cons,
        zipWith_replicate_q f a b N]

lemma schemeInc_zero_field (s : ode_t) (f : List ℚ → List ℚ) (h : ℚ) (N : ℕ)
    (hs : realScheme s = true) (hf : ∀ u, f u = List.replicate N 0)
    (u : List ℚ) (hu : u.length = N) :
    schemeInc s f h u = u := by
  cases s
  · show eulerInc f h u = u
    rw [eulerInc, hf u]
    exact axpy_zero h u N hu
  · show heunInc f h u = u
    have hv : List.zipWith (fun a b => a + h * b) u (List.replicate N 0) = u :=
      axpy_zero h u N hu
    simp only [heunInc, hf, hv]
    rw [zadd_zero_left (List.replicate N 0) N (List.length_replicate N 0)]
    exact axpy_zero (h / 2) u N hu
  · show rk4Inc f h u = u
    have hv2 : List.zipWith (fun a b => a + h / 2 * b) u (List.replicate N 0) = u :=
      axpy_zero (h / 2) u N hu
    have hvh : List.zipWith (fun a b => a + h * b) u (List.replicate N 0) = u :=
      axpy_zero h u N hu
    simp only [rk4Inc, hf, hv2, hvh]
    rw [zipWith_replicate_q, zipWith_replicate_q, zipWith_replicate_q]
    norm_num
    exact axpy_zero (h / 6) u N hu
  · exact absurd hs (by simp [realScheme])

/-- Claim C9: with a vector field that always returns the zero vector, every
real scheme propagates the state unchanged: slot k+1 receives exactly its
pre-existing content plus the (unchanged) state read from slot k, and when
the slots beyond slot 0 are zero-prefilled every slot of the result equals
slot 0. -/
theorem zero_field_keeps_state (s : ode_t) (f : List ℚ → List ℚ) (h : ℚ) (N : ℕ)
    (x : List (List ℚ)) (hs : realScheme s = true)
    (hf : ∀ u, f u = List.replicate N 0)
    (hx : ∀ j, j < x.length → (x.getD j []).length = N) :
    (∀ k, k + 1 < x.length →
      (ODE s f h x).getD (k + 1) [] =
        List.zipWith (fun p q => p + q) (x.getD (k + 1) [])
          ((ODE s f h x).getD k [])) ∧
    ((∀ j, 1 ≤ j → j < x.length → x.getD j [] = List.replicate N 0) →
      ∀ k, k < x.length → (ODE s f h x).getD k [] = x.getD 0 []) := by
  have hrun : ODE s f h x = odeRun (schemeInc s f h) x := ODE_real_run s f h x hs
  have hlen : ∀ k, k < x.length →
      ((odeRun (schemeInc s f h) x).getD k []).length = N := by
    intro k
    induction k with
    | zero =>
        intro h0
        rw [odeRun_getD_zero]
        exact hx 0 h0
    | succ k ih =>
        intro hk1
        have hk : k < x.length := Nat.lt_of_succ_lt hk1
        rw [odeRun_getD _ x k hk1,
          schemeInc_zero_field s f h N hs hf _ (ih hk), List.length_zipWith,
          hx (k + 1) hk1, ih hk]
        exact min_self N
  have ha : ∀ k, k + 1 < x.length →
      (odeRun (schemeInc s f h) x).getD (k + 1) [] =
        List.zipWith (fun p q => p + q) (x.getD (k + 1) [])
          ((odeRun (schemeInc s f h) x).getD k []) := by
    intro k hk1
    rw [odeRun_getD _ x k hk1,
      schemeInc_zero_field s f h N hs hf _ (hlen k (Nat.lt_of_succ_lt hk1))]
  have hb : (∀ j, 1 ≤ j → j < x.length → x.getD j [] = List.replicate N 0) →
      ∀ k, k < x.length →
        (odeRun (schemeInc s f h) x).getD k [] = x.getD 0 [] := by
    intro hpre k
    induction k with
    | zero =>
        intro _
        exact odeRun_getD_zero _ x
    | succ k ih =>
        intro hk1
        have hk : k < x.length := Nat.lt_of_succ_lt hk1
        rw [ha k hk1, hpre (k + 1) (Nat.succ_le_succ (Nat.zero_le k)) hk1,
          zadd_zero_left _ N (hlen k hk)]
        exact ih hk
  constructor
  · simp only [hrun]
    exact ha
  · simp only [hrun]
    exact hb

/-- Witness for C9 at concrete inputs. -/
theorem zero_field_keeps_state_witness :
    (∀ k, k + 1 < ([[(2 : ℚ)], [3]] : List (List ℚ)).length →
      (ODE ode_t.EULER (fun _ => List.replicate 1 0) 1 [[2], [3]]).getD (k + 1) [] =
        List.zipWith (fun p q => p + q) (([[(2 : ℚ)], [3]] : List (List ℚ)).getD (k + 1) [])
          ((ODE ode_t.EULER (fun _ => List.replicate 1 0) 1 [[2], [3]]).getD k [])) ∧
    ((∀ j, 1 ≤ j → j < ([[(2 : ℚ)], [3]] : List (List ℚ)).length →
        ([[(2 : ℚ)], [3]] : List (List ℚ)).getD j [] = List.replicate 1 0) →
      ∀ k, k < ([[(2 : ℚ)], [3]] : List (List ℚ)).length →
        (ODE ode_t.EULER (fun _ => List.replicate 1 0) 1 [[2], [3]]).getD k [] =
          ([[(2 : ℚ)], [3]] : List (List ℚ)).getD 0 []) :=
  zero_field_keeps_state ode_t.EULER (fun _ => List.replicate 1 0) 1 1 [[2], [3]]
    (by decide) (fun _ => rfl) (by decide)

/-- Claim C10: with n = 0 the loop bound N*(n-1) wraps in size_t arithmetic,
so the step loop of either stepper is entered (out of bounds for the empty
buffer of N*0 doubles), while for every n with 1 <= n and no overflow the
loop runs exactly n-1 times; the documented precondition n >= 1 is therefore
necessary. -/
theorem n_zero_loop_executes (N : ℕ) (h1 : 0 < N) (h2 : N < SIZE_MOD) :
    odeLoopOffset N 0 = SIZE_MOD - N ∧
    0 < odeLoopIters N 0 ∧
    0 < odeLoopIters 1 0 ∧
    (∀ n, 1 ≤ n → N * (n - 1) < SIZE_MOD → odeLoopIters N n = n - 1) := by
  have hM : SIZE_MOD = 18446744073709551616 := by norm_num [SIZE_MOD]
  have hoff : odeLoopOffset N 0 = SIZE_MOD - N := by
    unfold odeLoopOffset sizeSub1
    rw [hM] at h2 ⊢
    omega
  refine ⟨hoff, ?_, ?_, ?_⟩
  · unfold odeLoopIters
    rw [hoff]
    have he : SIZE_MOD - N + N - 1 = SIZE_MOD - 1 := by
      rw [hM] at h2 ⊢
      omega
    rw [he]
    exact (Nat.le_div_iff_mul_le h1).mpr (by rw [hM] at h2 ⊢; omega)
  · unfold odeLoopIters odeLoopOffset sizeSub1
    rw [hM]
    omega
  · intro n hn hnm
    have hn1 : n - 1 < SIZE_MOD :=
      lt_of_le_of_lt (Nat.le_mul_of_pos_left (n - 1) h1) hnm
    have hs1 : sizeSub1 n = n - 1 := by
      unfold sizeSub1
      rw [hM] at hn1 ⊢
      omega
    have hoff2 : odeLoopOffset N n = N * (n - 1) := by
      unfold odeLoopOffset
      rw [hs1]
      exact Nat.mod_eq_of_lt hnm
    unfold odeLoopIters
    rw [hoff2]
    have he2 : N * (n - 1) + N - 1 = N * (n - 1) + (N - 1) := by omega
    rw [he2, Nat.mul_add_div h1, Nat.div_eq_of_lt (by omega)]
    omega

/-- Witness for C10 at a concrete dimension. -/
theorem n_zero_loop_executes_witness :
    odeLoopOffset 3 0 = SIZE_MOD - 3 ∧
    0 < odeLoopIters 3 0 ∧
    0 < odeLoopIters 1 0 ∧
    (∀ n, 1 ≤ n → 3 * (n - 1) < SIZE_MOD → odeLoopIters 3 n = n - 1) :=
  n_zero_loop_executes 3 (by norm_num) (by norm_num [SIZE_MOD])

end Odesolve
